import Mathlib

/-!
Shallow embedding of the habrss feed merge-and-filter engine
(src/habrss.py) and verification of its specification.

Modelling conventions:
* `FeedItem`, `FilterConfig`, `FeedConfig`, `FeedsConfig` mirror the
  dataclasses of the source.  `guid_permalink` is modelled as
  `Option String` because `parse_feed` fills it from
  `attrib.get('isPermaLink')`, which yields `None` when the attribute is
  absent, and `dump_feed` tests it for truthiness.
* Python dicts (insertion ordered, update-in-place) are modelled as
  association lists `List (String × FeedItem)` with the helpers
  `dictFind?`, `dictInsert`, `dictErase`.
* The `re` module is abstracted: rule matching takes a matcher
  `m : String → String → Bool` standing for
  `fun p s => re.fullmatch(p, s, re.IGNORECASE) is not None`.
  For the load-time/evaluation-time question a second abstraction
  `RegexModel` additionally records which pattern strings compile, and
  `reFullmatch` models the fact that `re.fullmatch` raises `re.error`
  on a pattern that does not compile.
* XML documents are modelled at the element-tree level (`XElem`), i.e.
  `ET.fromstring`/`ET.tostring` are taken as inverse bijections between
  documents and trees; `parse_feed` and `dump_feed` work on trees.
* Python generators are modelled as strict list-producing functions;
  exceptions escaping them become `Except`.
-/

/-- FeedItem dataclass (src/habrss.py lines 61-70). -/
structure FeedItem where
  title : String
  guid : String
  guid_permalink : Option String
  link : String
  description : String
  pub_date : String
  categories : List String
  creator : String
deriving DecidableEq, Repr

/-- FilterConfig dataclass (lines 41-45): an optional triple of regex patterns. -/
structure FilterConfig where
  title : Option String := none
  category : Option String := none
  creator : Option String := none
deriving DecidableEq, Repr

/-- FeedConfig dataclass (lines 48-53).  The source fields `exclude` and
`include` are rendered as `excludeRules` and `includeRules` because
`include` is a Lean keyword. -/
structure FeedConfig where
  name : String
  urls : List String
  excludeRules : List FilterConfig := []
  includeRules : List FilterConfig := []
deriving DecidableEq, Repr

/-- FeedsConfig dataclass (lines 56-58). -/
structure FeedsConfig where
  feeds : List FeedConfig
deriving DecidableEq, Repr

/-- FeedItem.unicalize (lines 72-79), generalized over the running
`seen_guids` set (modelled as a list). -/
def unicalizeGo (seen : List String) : List FeedItem → List FeedItem
  | [] => []
  | item :: rest =>
    if item.guid ∈ seen then
      unicalizeGo seen rest
    else
      item :: unicalizeGo (item.guid :: seen) rest

/-- FeedItem.unicalize (lines 72-79): keep the first item for each guid. -/
def FeedItem.unicalize (items : List FeedItem) : List FeedItem :=
  unicalizeGo [] items

/-- Lookup in a python dict modelled as an association list. -/
def dictFind? : List (String × FeedItem) → String → Option FeedItem
  | [], _ => none
  | (k₁, v₁) :: rest, k => if k₁ = k then some v₁ else dictFind? rest k

/-- Python `d[k] = v`: update in place when the key is present, else append. -/
def dictInsert : List (String × FeedItem) → String → FeedItem → List (String × FeedItem)
  | [], k, v => [(k, v)]
  | (k₁, v₁) :: rest, k, v =>
    if k₁ = k then (k, v) :: rest else (k₁, v₁) :: dictInsert rest k v

/-- Python `if k in d: del d[k]` (net effect: drop the binding for `k`). -/
def dictErase (d : List (String × FeedItem)) (k : String) : List (String × FeedItem) :=
  d.filter (fun p => p.1 ≠ k)

/-- FilterStatistics dataclass (lines 92-95): two title-keyed dicts. -/
structure FilterStatistics where
  passed : List (String × FeedItem) := []
  blocked : List (String × FeedItem) := []
deriving DecidableEq, Repr

/-- The empty ledger, as built by the FilterStatistics default factories. -/
def emptyStats : FilterStatistics := {}

/-- FilterStatistics.add (lines 97-106): insert the item keyed by its title
into the mapping selected by `passed`, deleting the title from the other. -/
def FilterStatistics.add (s : FilterStatistics) (item : FeedItem) (passed : Bool) : FilterStatistics :=
  if passed then
    { passed := dictInsert s.passed item.title item
      blocked := dictErase s.blocked item.title }
  else
    { passed := dictErase s.passed item.title
      blocked := dictInsert s.blocked item.title item }

/-- Fold a sequence of record calls over a ledger, earliest call first. -/
def recordAll (s : FilterStatistics) : List (FeedItem × Bool) → FilterStatistics
  | [] => s
  | (item, p) :: rest => recordAll (s.add item p) rest

/-- The most recent call of a call sequence whose item has the given title. -/
def lastCall (t : String) : List (FeedItem × Bool) → Option (FeedItem × Bool)
  | [] => none
  | c :: rest =>
    match lastCall t rest with
    | some r => some r
    | none => if c.1.title = t then some c else none

/-- Number of occurrences of a value in a list, i.e. `Counter(l)[c]`. -/
def countOcc (l : List String) (c : String) : Nat :=
  (l.filter (fun x => x == c)).length

/-- The items of `Counter(l)`: one `(count, key)` pair per distinct element
of `l` (the key order is irrelevant because the result is then sorted by a
total order). -/
def counterItems (l : List String) : List (Nat × String) :=
  l.dedup.map (fun c => (countOcc l c, c))

/-- Boolean rendering of python tuple comparison `b <= a` on (count, key)
pairs: count compared first, then the key string. -/
def tupGe (a b : Nat × String) : Bool :=
  decide (b.1 < a.1 ∨ (b.1 = a.1 ∧ b.2 ≤ a.2))

/-- Python `sorted(ps, reverse=True)` on (count, key) pairs: descending
lexicographic order. -/
def sortedDesc (ps : List (Nat × String)) : List (Nat × String) :=
  ps.mergeSort tupGe

/-- The `.values()` view of a dict modelled as an association list. -/
def dictValues (d : List (String × FeedItem)) : List FeedItem :=
  d.map (fun p => p.2)

/-- The generator `category for item in d.values() for category in item.categories`. -/
def allCategories (d : List (String × FeedItem)) : List String :=
  (dictValues d).flatMap (fun item => item.categories)

/-- The generator `item.creator for item in d.values()`. -/
def allCreators (d : List (String × FeedItem)) : List String :=
  (dictValues d).map (fun item => item.creator)

/-- FilterStatistics.passed_categories (lines 108-120). -/
def FilterStatistics.passed_categories (s : FilterStatistics) : List (Nat × String) :=
  sortedDesc (counterItems (allCategories s.passed))

/-- FilterStatistics.blocked_categories (lines 122-134). -/
def FilterStatistics.blocked_categories (s : FilterStatistics) : List (Nat × String) :=
  sortedDesc (counterItems (allCategories s.blocked))

/-- FilterStatistics.passed_creators (lines 136-147). -/
def FilterStatistics.passed_creators (s : FilterStatistics) : List (Nat × String) :=
  sortedDesc (counterItems (allCreators s.passed))

/-- FilterStatistics.blocked_creators (lines 149-160). -/
def FilterStatistics.blocked_creators (s : FilterStatistics) : List (Nat × String) :=
  sortedDesc (counterItems (allCreators s.blocked))

/-- The literal separator of `link.split('?utm')` (line 164). -/
def utmMarker : List Char := ['?', 'u', 't', 'm']

/-- The prefix of `l` before the first occurrence of `pat`, the whole of `l`
when `pat` does not occur: this is `l.split(pat)[0]`. -/
def splitPrefixBefore (pat : List Char) : List Char → List Char
  | [] => []
  | c :: rest =>
    if pat.isPrefixOf (c :: rest) then [] else c :: splitPrefixBefore pat rest

/-- cleanup_link (lines 163-164): `link.split('?utm')[0]`. -/
def cleanup_link (link : String) : String :=
  ⟨splitPrefixBefore utmMarker link.data⟩

/-- The test `filt.title is not None and re.fullmatch(filt.title, item.title,
re.IGNORECASE)` of line 185, with the matcher abstracted as `m`. -/
def titleMatch (m : String → String → Bool) (item : FeedItem) (filt : FilterConfig) : Bool :=
  match filt.title with
  | some p => m p item.title
  | none => false

/-- The test of line 187: some category of the item fully matches the rule's
category pattern. -/
def categoryMatch (m : String → String → Bool) (item : FeedItem) (filt : FilterConfig) : Bool :=
  match filt.category with
  | some p => item.categories.any (fun c => m p c)
  | none => false

/-- The test of line 189 on the creator field. -/
def creatorMatch (m : String → String → Bool) (item : FeedItem) (filt : FilterConfig) : Bool :=
  match filt.creator with
  | some p => m p item.creator
  | none => false

/-- check_filters (lines 183-191) with the `re.fullmatch`/IGNORECASE matcher
abstracted as `m` (pattern first, subject second).  A field equal to `none`
models a pattern that `is None` and is skipped; the three field tests are
tried in source order with early return. -/
def check_filters (m : String → String → Bool) (item : FeedItem) : List FilterConfig → Bool
  | [] => false
  | filt :: rest =>
    if titleMatch m item filt then true
    else if categoryMatch m item filt then true
    else if creatorMatch m item filt then true
    else check_filters m item rest

/-- Specification-side matching predicate, written from the spec words: some
rule has a provided title, category or creator pattern that fully matches
the corresponding entry field (the category pattern matching if it matches
any one of the entry's category labels).  Used to compare with
`check_filters`. -/
def matchesSpec (m : String → String → Bool) (item : FeedItem) (rules : List FilterConfig) : Prop :=
  ∃ filt ∈ rules,
    (∃ p, filt.title = some p ∧ m p item.title = true) ∨
    (∃ p c, filt.category = some p ∧ c ∈ item.categories ∧ m p c = true) ∨
    (∃ p, filt.creator = some p ∧ m p item.creator = true)

/-- The classification test of process_feed_items line 196:
`check_filters(item, exclude) and not check_filters(item, include)` means
blocked, anything else passes.  `passesB` is the passing condition. -/
def passesB (m : String → String → Bool) (cfg : FeedConfig) (item : FeedItem) : Bool :=
  !(check_filters m item cfg.excludeRules && !check_filters m item cfg.includeRules)

/-- The loop body of process_feed_items (lines 194-200) over an already
deduplicated item list, threading the mutable statistics explicitly. -/
def processLoop (m : String → String → Bool) (cfg : FeedConfig) :
    List FeedItem → FilterStatistics → List FeedItem × FilterStatistics
  | [], stats => ([], stats)
  | item :: rest, stats =>
    if check_filters m item cfg.excludeRules && !check_filters m item cfg.includeRules then
      processLoop m cfg rest (stats.add item false)
    else
      let r := processLoop m cfg rest (stats.add item true)
      (item :: r.1, r.2)

/-- process_feed_items (lines 194-200): deduplicate, then classify each
surviving item, record the classification, and yield the passing items. -/
def process_feed_items (m : String → String → Bool) (items : List FeedItem)
    (cfg : FeedConfig) (stats : FilterStatistics) : List FeedItem × FilterStatistics :=
  processLoop m cfg (FeedItem.unicalize items) stats

/-- An XML element as exposed by xml.etree.ElementTree: tag, attributes,
text and child elements.  `ET.fromstring`/`ET.tostring` are modelled as
inverse bijections between documents and trees, so a document is a tree. -/
inductive XElem : Type where
  | node (tag : String) (attrib : List (String × String)) (text : Option String) (children : List XElem)

/-- Tag accessor. -/
def XElem.tag : XElem → String
  | .node t _ _ _ => t

/-- Attribute list accessor. -/
def XElem.attrib : XElem → List (String × String)
  | .node _ a _ _ => a

/-- Text accessor. -/
def XElem.text : XElem → Option String
  | .node _ _ tx _ => tx

/-- Children accessor. -/
def XElem.children : XElem → List XElem
  | .node _ _ _ ch => ch

/-- Element.find: the first direct child with the given tag. -/
def XElem.find? (e : XElem) (t : String) : Option XElem :=
  e.children.find? (fun c => c.tag == t)

/-- Element.findall: all direct children with the given tag, in order. -/
def XElem.findall (e : XElem) (t : String) : List XElem :=
  e.children.filter (fun c => c.tag == t)

/-- Element.attrib.get: lookup of an attribute value. -/
def XElem.attribGet (e : XElem) (k : String) : Option String :=
  (e.attrib.find? (fun p => p.1 == k)).map (fun p => p.2)

/-- The ElementTree qualified tag of the dc:creator element (lines 179, 225). -/
def dcCreator : String := "\x7bhttp://purl.org/dc/elements/1.1\x7dcreator"

/-- Reading `item.find(t).text` in parse_feed: `find` returning `None`
raises (missing mandatory element), and a `None` text cannot populate a
mandatory `str` field of FeedItem, so both are malformed-input failures. -/
def getText (e : XElem) (t : String) : Except String String :=
  match e.find? t with
  | none => Except.error ("missing element " ++ t)
  | some c =>
    match c.text with
    | none => Except.error ("missing text of " ++ t)
    | some s => Except.ok s

/-- Reading `[elt.text for elt in item.findall('category')]` into the
`list[str]` categories field: each category element must carry text. -/
def textsOf : List XElem → Except String (List String)
  | [] => Except.ok []
  | e :: rest =>
    match e.text with
    | none => Except.error "missing text of category"
    | some s => do
      let r ← textsOf rest
      Except.ok (s :: r)

/-- The FeedItem construction for one item element (lines 171-180), written
as an explicit chain of Except binds: each field read in source order, the
first failure aborting the construction. -/
def parseItem (item : XElem) : Except String FeedItem :=
  Except.bind (getText item "title") (fun title =>
  Except.bind (match item.find? "guid" with
    | none => Except.error "missing element guid"
    | some g => Except.ok g) (fun guidElem =>
  Except.bind (match guidElem.text with
    | none => Except.error "missing text of guid"
    | some s => Except.ok s) (fun guid =>
  Except.bind (getText item "link") (fun link =>
  Except.bind (getText item "description") (fun description =>
  Except.bind (getText item "pubDate") (fun pubDate =>
  Except.bind (textsOf (item.findall "category")) (fun categories =>
  Except.bind (getText item dcCreator) (fun creator =>
  Except.ok
    { title := title
      guid := guid
      guid_permalink := guidElem.attribGet "isPermaLink"
      link := cleanup_link link
      description := description
      pub_date := pubDate
      categories := categories
      creator := creator }))))))))

/-- root.findall('channel/item'): the item children of the channel children
of the root, in document order. -/
def channelItems (root : XElem) : List XElem :=
  (root.children.filter (fun c => c.tag == "channel")).flatMap
    (fun ch => ch.children.filter (fun c => c.tag == "item"))

/-- Strict rendering of the parse_feed generator over an item list. -/
def parseItems : List XElem → Except String (List FeedItem)
  | [] => Except.ok []
  | it :: rest => do
    let x ← parseItem it
    let xs ← parseItems rest
    Except.ok (x :: xs)

/-- parse_feed (lines 167-180) at the element-tree level. -/
def parse_feed (root : XElem) : Except String (List FeedItem) :=
  parseItems (channelItems root)

/-- The attribute list of the serialized guid element (lines 216-217): the
isPermaLink attribute is set only when `item.guid_permalink` is truthy,
i.e. neither `None` nor the empty string. -/
def guidAttrib (item : FeedItem) : List (String × String) :=
  match item.guid_permalink with
  | some s => if s = "" then [] else [("isPermaLink", s)]
  | none => []

/-- One serialized category element (lines 222-223). -/
def catNode (c : String) : XElem :=
  .node "category" [] (some c) []

/-- The serialized dc:creator element (line 225). -/
def creatorNode (cr : String) : XElem :=
  .node dcCreator [] (some cr) []

/-- The item element built by dump_feed for one item (lines 210-225). -/
def dumpItem (item : FeedItem) : XElem :=
  .node "item" [] none
    ([ .node "title" [] (some item.title) [],
       .node "guid" (guidAttrib item) (some item.guid) [],
       .node "link" [] (some item.link) [],
       .node "description" [] (some item.description) [],
       .node "pubDate" [] (some item.pub_date) [] ]
     ++ item.categories.map catNode
     ++ [ creatorNode item.creator ])

/-- dump_feed (lines 203-227): an rss root carrying a feed title element and
a channel element holding the serialized items. -/
def dump_feed (items : List FeedItem) : XElem :=
  .node "rss" [] none
    [ .node "title" [] (some "habrss feed") [],
      .node "channel" [] none (items.map dumpItem) ]

/-- A FeedItem whose link carries the serializer-normalizable form and whose
permalink flag survives the truthiness test of dump_feed. -/
def FeedItem.normLink (item : FeedItem) : FeedItem :=
  { item with link := cleanup_link item.link }

/-- Abstract model of the python re module: which pattern strings compile,
and what a compiled pattern's fullmatch answers. -/
structure RegexModel where
  valid : String → Bool
  fullmatch : String → String → Bool

/-- re.fullmatch(p, s, re.IGNORECASE): raises re.error when the pattern
does not compile. -/
def reFullmatch (R : RegexModel) (p s : String) : Except String Bool :=
  if R.valid p then Except.ok (R.fullmatch p s) else Except.error "re.error"

/-- The `any(re.fullmatch(p, category, ...) for category in item.categories)`
generator of line 187, with pattern-compilation failure propagated. -/
def anyMatchE (R : RegexModel) (p : String) : List String → Except String Bool
  | [] => Except.ok false
  | c :: rest => do
    let b ← reFullmatch R p c
    if b then Except.ok true else anyMatchE R p rest

/-- check_filters (lines 183-191) under the RegexModel abstraction, so that
pattern-compilation failure at evaluation time is observable. -/
def check_filtersE (R : RegexModel) (item : FeedItem) : List FilterConfig → Except String Bool
  | [] => Except.ok false
  | filt :: rest => do
    let tb ← match filt.title with
      | some p => reFullmatch R p item.title
      | none => Except.ok false
    if tb then Except.ok true else do
      let cb ← match filt.category with
        | some p => anyMatchE R p item.categories
        | none => Except.ok false
      if cb then Except.ok true else do
        let rb ← match filt.creator with
          | some p => reFullmatch R p item.creator
          | none => Except.ok false
        if rb then Except.ok true else check_filtersE R item rest

/-- load_config (lines 374-376): builds FeedsConfig from the parsed YAML
document.  Shape validation is the pydantic layer, modelled by the typing
of the input; no pattern in the configuration is compiled or validated. -/
def load_config (raw : FeedsConfig) : Except String FeedsConfig :=
  Except.ok raw

/-- A FeedConfig carrying just the two rule lists, to state the per-entry
classification of process_feed_items. -/
def rulesConfig (ex inc : List FilterConfig) : FeedConfig :=
  { name := "", urls := [], excludeRules := ex, includeRules := inc }

/-- An item element has a child with the given tag carrying text. -/
def hasTextChild (item : XElem) (t : String) : Bool :=
  match item.find? t with
  | some c => c.text.isSome
  | none => false

/-- An item element lacks at least one of the six mandatory sub-elements
read by parse_feed. -/
def missingMandatory (item : XElem) : Bool :=
  (item.find? "title").isNone || (item.find? "guid").isNone
    || (item.find? "link").isNone || (item.find? "description").isNone
    || (item.find? "pubDate").isNone || (item.find? dcCreator).isNone

/-- An item element carries text on all six mandatory sub-elements and on
each of its (zero or more) category sub-elements. -/
def itemComplete (item : XElem) : Bool :=
  hasTextChild item "title" && hasTextChild item "guid" && hasTextChild item "link"
    && hasTextChild item "description" && hasTextChild item "pubDate"
    && hasTextChild item dcCreator
    && (item.findall "category").all (fun c => c.text.isSome)

/-- What a serialize-parse round trip does to the permalink flag: the
serializer drops a non-truthy flag (none or empty string), and the parser
then reads none. -/
def truncPermalink : Option String → Option String
  | some s => if s = "" then none else some s
  | none => none

/-- The entry produced by parsing the serialization of an entry: the link is
normalized and the permalink flag goes through `truncPermalink`. -/
def reparsedItem (it : FeedItem) : FeedItem :=
  { it with
    link := cleanup_link it.link
    guid_permalink := truncPermalink it.guid_permalink }

/-- A RegexModel in which the single pattern string `(` does not compile,
as in the python re module, and no fullmatch succeeds. -/
def parenInvalidModel : RegexModel :=
  { valid := fun p => p != "(", fullmatch := fun _ _ => false }

/-- A configuration whose only rule carries the syntactically invalid
pattern `(` as its title pattern. -/
def badPatternConfig : FeedsConfig :=
  { feeds := [{ name := "f", urls := ["u"],
                excludeRules := [{ title := some "(" }], includeRules := [] }] }

/-- A concrete entry used to drive rule evaluation. -/
def sampleItem : FeedItem :=
  { title := "t", guid := "g", guid_permalink := none, link := "l",
    description := "d", pub_date := "p", categories := [], creator := "c" }

lemma splitPrefixBefore_no_occ (pat : List Char) :
    ∀ l : List Char, (∀ i, i < l.length → pat.isPrefixOf (l.drop i) = false) →
    splitPrefixBefore pat l = l := by
  intro l
  induction l with
  | nil => intro _; rfl
  | cons c rest ih =>
    intro h
    have h0 : pat.isPrefixOf (c :: rest) = false := by
      simpa using h 0 (Nat.succ_pos _)
    simp only [splitPrefixBefore, h0, Bool.false_eq_true, if_false]
    have : splitPrefixBefore pat rest = rest := by
      apply ih
      intro i hi
      simpa using h (i + 1) (Nat.succ_lt_succ hi)
    rw [this]

lemma splitPrefixBefore_first_occ (pat : List Char) (hpat : pat ≠ []) :
    ∀ (pre suf l : List Char), l = pre ++ pat ++ suf →
    (∀ i, i < pre.length → pat.isPrefixOf (l.drop i) = false) →
    splitPrefixBefore pat l = pre := by
  intro pre
  induction pre with
  | nil =>
    intro suf l hl _
    obtain ⟨a, pat', rfl⟩ := List.exists_cons_of_ne_nil hpat
    subst hl
    have hpref : (a :: pat').isPrefixOf (a :: pat' ++ suf) = true := by
      rw [List.isPrefixOf_iff_prefix]
      exact ⟨suf, by simp⟩
    simp only [List.nil_append] at hpref ⊢
    simp [splitPrefixBefore, hpref]
  | cons c pre' ih =>
    intro suf l hl h
    subst hl
    have h0 : pat.isPrefixOf (c :: (pre' ++ pat ++ suf)) = false := by
      simpa using h 0 (Nat.succ_pos _)
    have hrest := ih suf (pre' ++ pat ++ suf) rfl (by
      intro i hi
      simpa using h (i + 1) (Nat.succ_lt_succ hi))
    show splitPrefixBefore pat (c :: (pre' ++ pat ++ suf)) = c :: pre'
    have step : splitPrefixBefore pat (c :: (pre' ++ pat ++ suf)) =
        if pat.isPrefixOf (c :: (pre' ++ pat ++ suf)) then []
        else c :: splitPrefixBefore pat (pre' ++ pat ++ suf) := rfl
    rw [step, h0]
    simp only [Bool.false_eq_true, if_false]
    rw [hrest]

/-- C7: cleanup_link returns the prefix of the string before the first
occurrence of the literal substring `?utm` and the string unchanged when
`?utm` does not occur, as on the two concrete examples. -/
theorem cleanup_link_spec (s : String) :
    ((∀ i, i < s.data.length → utmMarker.isPrefixOf (s.data.drop i) = false) →
      cleanup_link s = s)
    ∧ (∀ pre suf : List Char, s.data = pre ++ utmMarker ++ suf →
        (∀ i, i < pre.length → utmMarker.isPrefixOf (s.data.drop i) = false) →
        (cleanup_link s).data = pre)
    ∧ cleanup_link "https://example.com/a?utm_source=x" = "https://example.com/a"
    ∧ cleanup_link "https://example.com/a?x=1" = "https://example.com/a?x=1" := by
  refine ⟨?_, ?_, by decide, by decide⟩
  · intro h
    obtain ⟨l⟩ := s
    show String.mk (splitPrefixBefore utmMarker l) = String.mk l
    rw [splitPrefixBefore_no_occ utmMarker l h]
  · intro pre suf hdec h
    show splitPrefixBefore utmMarker s.data = pre
    exact splitPrefixBefore_first_occ utmMarker (by decide) pre suf s.data hdec h

/-- Witness for C7 at a concrete link with a `?utm` marker and at one
without. -/
theorem cleanup_link_spec_witness :
    (cleanup_link "a?utmx").data = ['a'] ∧ cleanup_link "abc" = "abc" :=
  ⟨(cleanup_link_spec "a?utmx").2.1 ['a'] ['x'] (by decide) (by decide),
   (cleanup_link_spec "abc").1 (by decide)⟩

lemma unicalizeGo_filter (g : String) :
    ∀ (items : List FeedItem) (seen : List String),
    (unicalizeGo seen items).filter (fun it => it.guid == g) =
      if g ∈ seen then [] else ((items.find? (fun it => it.guid == g)).toList) := by
  intro items
  induction items with
  | nil => intro seen; simp [unicalizeGo]
  | cons item rest ih =>
    intro seen
    by_cases hin : item.guid ∈ seen
    · rw [unicalizeGo, if_pos hin, ih seen]
      by_cases hg : g ∈ seen
      · simp [hg]
      · have hne : (item.guid == g) = false := by
          rw [beq_eq_false_iff_ne]
          intro hEq
          exact hg (hEq ▸ hin)
        simp [hg, List.find?, hne]
    · rw [unicalizeGo, if_neg hin]
      by_cases hguid : item.guid = g
      · subst hguid
        have h1 := ih (item.guid :: seen)
        rw [List.filter_cons_of_pos (by simp)]
        rw [h1, if_pos (List.mem_cons_self _ _)]
        simp [hin, List.find?]
      · have hne : (item.guid == g) = false := by
          simpa using hguid
        rw [List.filter_cons_of_neg (by simp [hne])]
        rw [ih (item.guid :: seen)]
        have : (g ∈ item.guid :: seen) ↔ g ∈ seen := by
          constructor
          · intro h
            rcases List.mem_cons.mp h with h | h
            · exact absurd h.symm hguid
            · exact h
          · exact fun h => List.mem_cons_of_mem _ h
        by_cases hg : g ∈ seen
        · rw [if_pos (this.mpr hg), if_pos hg]
        · rw [if_neg (fun h => hg (this.mp h)), if_neg hg]
          simp [List.find?, hne]

lemma unicalizeGo_sublist :
    ∀ (items : List FeedItem) (seen : List String),
    (unicalizeGo seen items).Sublist items := by
  intro items
  induction items with
  | nil => intro seen; simp [unicalizeGo]
  | cons item rest ih =>
    intro seen
    rw [unicalizeGo]
    by_cases hin : item.guid ∈ seen
    · rw [if_pos hin]
      exact (ih seen).cons item
    · rw [if_neg hin]
      exact (ih (item.guid :: seen)).cons₂ item

/-- C3: deduplication keeps, for each guid occurring in the input, exactly
the first input entry with that guid (and nothing for other guids), and the
output is a sublist of the input, hence in the original relative order. -/
theorem unicalize_spec (items : List FeedItem) :
    (∀ g : String, (FeedItem.unicalize items).filter (fun it => it.guid == g) =
      (items.find? (fun it => it.guid == g)).toList)
    ∧ (FeedItem.unicalize items).Sublist items := by
  constructor
  · intro g
    have := unicalizeGo_filter g items []
    simpa [FeedItem.unicalize] using this
  · exact unicalizeGo_sublist items []

lemma dictFind?_insert (d : List (String × FeedItem)) (k : String) (v : FeedItem) (t : String) :
    dictFind? (dictInsert d k v) t = if k = t then some v else dictFind? d t := by
  induction d with
  | nil => simp [dictInsert, dictFind?]
  | cons p rest ih =>
    obtain ⟨k₁, v₁⟩ := p
    by_cases hk : k₁ = k
    · subst hk
      rw [dictInsert, if_pos rfl]
      by_cases ht : k₁ = t
      · subst ht; simp [dictFind?]
      · simp [dictFind?, ht]
    · rw [dictInsert, if_neg hk]
      by_cases ht : k₁ = t
      · subst ht
        have : k ≠ k₁ := fun h => hk h.symm
        simp [dictFind?, this]
      · simp [dictFind?, ht, ih]

lemma dictFind?_erase (d : List (String × FeedItem)) (k t : String) :
    dictFind? (dictErase d k) t = if k = t then none else dictFind? d t := by
  induction d with
  | nil => simp [dictErase, dictFind?]
  | cons p rest ih =>
    obtain ⟨k₁, v₁⟩ := p
    have step2 : dictFind? ((k₁, v₁) :: rest) t =
        if k₁ = t then some v₁ else dictFind? rest t := rfl
    by_cases hk : k₁ = k
    · subst hk
      have h1 : dictErase ((k₁, v₁) :: rest) k₁ = dictErase rest k₁ := by
        rw [dictErase, dictErase, List.filter_cons_of_neg (by simp)]
      rw [h1, ih, step2]
      by_cases ht : k₁ = t
      · rw [if_pos ht, if_pos ht]
      · rw [if_neg ht, if_neg ht, if_neg ht]
    · have h1 : dictErase ((k₁, v₁) :: rest) k = (k₁, v₁) :: dictErase rest k := by
        rw [dictErase, dictErase, List.filter_cons_of_pos (by simpa using hk)]
      have step : dictFind? ((k₁, v₁) :: dictErase rest k) t =
          if k₁ = t then some v₁ else dictFind? (dictErase rest k) t := rfl
      rw [h1, step, step2, ih]
      by_cases ht : k₁ = t
      · subst ht
        rw [if_pos rfl, if_pos rfl, if_neg (fun h => hk h.symm)]
      · rw [if_neg ht, if_neg ht]

lemma add_find (s : FilterStatistics) (item : FeedItem) (p : Bool) (t : String) :
    dictFind? (s.add item p).passed t =
      (if item.title = t then (if p then some item else none) else dictFind? s.passed t)
    ∧ dictFind? (s.add item p).blocked t =
      (if item.title = t then (if p then none else some item) else dictFind? s.blocked t) := by
  cases p
  · simp [FilterStatistics.add, dictFind?_insert, dictFind?_erase]
  · simp [FilterStatistics.add, dictFind?_insert, dictFind?_erase]

lemma recordAll_find (calls : List (FeedItem × Bool)) :
    ∀ (s : FilterStatistics) (t : String),
    dictFind? (recordAll s calls).passed t =
      (match lastCall t calls with
       | some (item, p) => if p then some item else none
       | none => dictFind? s.passed t)
    ∧ dictFind? (recordAll s calls).blocked t =
      (match lastCall t calls with
       | some (item, p) => if p then none else some item
       | none => dictFind? s.blocked t) := by
  induction calls with
  | nil => intro s t; exact ⟨rfl, rfl⟩
  | cons c rest ih =>
    intro s t
    obtain ⟨item, p⟩ := c
    have hrec : recordAll s ((item, p) :: rest) = recordAll (s.add item p) rest := rfl
    have hlast : lastCall t ((item, p) :: rest) =
        (match lastCall t rest with
         | some r => some r
         | none => if item.title = t then some (item, p) else none) := rfl
    rw [hrec, hlast]
    obtain ⟨ihp, ihb⟩ := ih (s.add item p) t
    obtain ⟨ap, ab⟩ := add_find s item p t
    cases hcase : lastCall t rest with
    | some r =>
      obtain ⟨ri, rp⟩ := r
      rw [hcase] at ihp ihb
      exact ⟨ihp, ihb⟩
    | none =>
      rw [hcase] at ihp ihb
      by_cases ht : item.title = t <;>
        exact ⟨by simp [ihp, ap, ht], by simp [ihb, ab, ht]⟩

/-- C1: after any finite sequence of record calls starting from the empty
ledger, no title is a key of both mappings, and a title with at least one
recorded call lies exactly in the mapping selected by the flag of the most
recent call with that title, mapped to that call's item; a title never
recorded lies in neither mapping. -/
theorem ledger_exclusivity_recency (calls : List (FeedItem × Bool)) (t : String) :
    (¬ ((dictFind? (recordAll emptyStats calls).passed t).isSome = true
        ∧ (dictFind? (recordAll emptyStats calls).blocked t).isSome = true))
    ∧ (∀ item p, lastCall t calls = some (item, p) →
        dictFind? (recordAll emptyStats calls).passed t = (if p then some item else none)
        ∧ dictFind? (recordAll emptyStats calls).blocked t = (if p then none else some item))
    ∧ (lastCall t calls = none →
        dictFind? (recordAll emptyStats calls).passed t = none
        ∧ dictFind? (recordAll emptyStats calls).blocked t = none) := by
  obtain ⟨hp, hb⟩ := recordAll_find calls emptyStats t
  refine ⟨?_, ?_, ?_⟩
  · rintro ⟨hps, hbs⟩
    cases hcase : lastCall t calls with
    | some r =>
      obtain ⟨ri, rp⟩ := r
      rw [hcase] at hp hb
      cases rp
      · rw [hp] at hps; simp at hps
      · rw [hb] at hbs; simp at hbs
    | none =>
      rw [hcase] at hp
      rw [hp] at hps
      simp [emptyStats, dictFind?] at hps
  · intro item p hlast
    rw [hlast] at hp hb
    exact ⟨hp, hb⟩
  · intro hlast
    rw [hlast] at hp hb
    rw [hp, hb]
    exact ⟨rfl, rfl⟩

/-- Witness for C1: two record calls with the same title, the later one
blocked, leave the title exactly in the blocked mapping. -/
theorem ledger_exclusivity_recency_witness :
    let i1 : FeedItem :=
      { title := "a", guid := "g1", guid_permalink := none, link := "l",
        description := "d", pub_date := "p", categories := [], creator := "c" }
    let i2 : FeedItem :=
      { title := "a", guid := "g2", guid_permalink := none, link := "l2",
        description := "d2", pub_date := "p2", categories := [], creator := "c2" }
    dictFind? (recordAll emptyStats [(i1, true), (i2, false)]).blocked "a" = some i2
    ∧ dictFind? (recordAll emptyStats [(i1, true), (i2, false)]).passed "a" = none
    ∧ dictFind? (recordAll emptyStats [(i1, true), (i2, false)]).passed "zzz" = none := by
  intro i1 i2
  have h := (ledger_exclusivity_recency [(i1, true), (i2, false)] "a").2.1 i2 false (by decide)
  have h2 := (ledger_exclusivity_recency [(i1, true), (i2, false)] "zzz").2.2 (by decide)
  exact ⟨h.2, h.1, h2.1⟩

lemma check_filters_cons (m : String → String → Bool) (item : FeedItem)
    (filt : FilterConfig) (rest : List FilterConfig) :
    check_filters m item (filt :: rest) =
      (titleMatch m item filt || categoryMatch m item filt || creatorMatch m item filt
        || check_filters m item rest) := by
  cases h1 : titleMatch m item filt <;>
    cases h2 : categoryMatch m item filt <;>
      cases h3 : creatorMatch m item filt <;>
        simp [check_filters, h1, h2, h3]

lemma ruleMatch_iff (m : String → String → Bool) (item : FeedItem) (filt : FilterConfig) :
    (titleMatch m item filt || categoryMatch m item filt || creatorMatch m item filt) = true ↔
      ((∃ p, filt.title = some p ∧ m p item.title = true) ∨
       (∃ p c, filt.category = some p ∧ c ∈ item.categories ∧ m p c = true) ∨
       (∃ p, filt.creator = some p ∧ m p item.creator = true)) := by
  have h1 : titleMatch m item filt = true ↔
      (∃ p, filt.title = some p ∧ m p item.title = true) := by
    cases hf : filt.title <;> simp [titleMatch, hf]
  have h2 : categoryMatch m item filt = true ↔
      (∃ p c, filt.category = some p ∧ c ∈ item.categories ∧ m p c = true) := by
    cases hf : filt.category with
    | none => simp [categoryMatch, hf]
    | some p =>
      simp only [categoryMatch, hf, List.any_eq_true, Option.some.injEq]
      constructor
      · rintro ⟨c, hc, hm⟩
        exact ⟨p, c, rfl, hc, hm⟩
      · rintro ⟨p', c, hp, hc, hm⟩
        exact ⟨c, hc, by rwa [hp]⟩
  have h3 : creatorMatch m item filt = true ↔
      (∃ p, filt.creator = some p ∧ m p item.creator = true) := by
    cases hf : filt.creator <;> simp [creatorMatch, hf]
  simp only [Bool.or_eq_true]
  rw [h1, h2, h3]
  exact or_assoc

lemma check_filters_iff (m : String → String → Bool) (item : FeedItem)
    (rules : List FilterConfig) :
    check_filters m item rules = true ↔ matchesSpec m item rules := by
  induction rules with
  | nil => simp [check_filters, matchesSpec]
  | cons filt rest ih =>
    rw [check_filters_cons]
    have expand : matchesSpec m item (filt :: rest) ↔
        (((∃ p, filt.title = some p ∧ m p item.title = true) ∨
          (∃ p c, filt.category = some p ∧ c ∈ item.categories ∧ m p c = true) ∨
          (∃ p, filt.creator = some p ∧ m p item.creator = true)) ∨
         matchesSpec m item rest) := by
      unfold matchesSpec
      exact List.exists_mem_cons_iff _ _ _
    rw [expand, ← ruleMatch_iff m item filt, ← ih]
    cases (titleMatch m item filt || categoryMatch m item filt || creatorMatch m item filt) <;>
      cases hr : check_filters m item rest <;> simp

/-- C2: the classification formula with include-override.  `check_filters`
is exactly the any-rule-matches predicate of the data model, and an entry
put through the pipeline is yielded iff not (it matches the exclude rules
and does not match the include rules); in particular an entry matching both
lists passes, and one matching neither list passes. -/
theorem classification_formula (m : String → String → Bool) (item : FeedItem)
    (ex inc : List FilterConfig) :
    (check_filters m item ex = true ↔ matchesSpec m item ex)
    ∧ ((process_feed_items m [item] (rulesConfig ex inc) emptyStats).1 = [item] ↔
        ¬ (matchesSpec m item ex ∧ ¬ matchesSpec m item inc))
    ∧ (matchesSpec m item ex → matchesSpec m item inc →
        (process_feed_items m [item] (rulesConfig ex inc) emptyStats).1 = [item])
    ∧ ((¬ matchesSpec m item ex ∧ ¬ matchesSpec m item inc) →
        (process_feed_items m [item] (rulesConfig ex inc) emptyStats).1 = [item]) := by
  have hu : FeedItem.unicalize [item] = [item] := by
    simp [FeedItem.unicalize, unicalizeGo]
  have hkey : (process_feed_items m [item] (rulesConfig ex inc) emptyStats).1 =
      (if check_filters m item ex && !check_filters m item inc then [] else [item]) := by
    show (processLoop m (rulesConfig ex inc) (FeedItem.unicalize [item]) emptyStats).1 = _
    rw [hu]
    by_cases hc : (check_filters m item ex && !check_filters m item inc) = true
    · rw [if_pos hc]
      have : processLoop m (rulesConfig ex inc) [item] emptyStats =
          processLoop m (rulesConfig ex inc) [] (emptyStats.add item false) := by
        show (if check_filters m item (rulesConfig ex inc).excludeRules
                && !check_filters m item (rulesConfig ex inc).includeRules then
                processLoop m (rulesConfig ex inc) [] (emptyStats.add item false)
              else _) = _
        rw [show (rulesConfig ex inc).excludeRules = ex from rfl,
            show (rulesConfig ex inc).includeRules = inc from rfl, if_pos hc]
      rw [this]
      rfl
    · rw [if_neg hc]
      have : processLoop m (rulesConfig ex inc) [item] emptyStats =
          (item :: (processLoop m (rulesConfig ex inc) [] (emptyStats.add item true)).1,
           (processLoop m (rulesConfig ex inc) [] (emptyStats.add item true)).2) := by
        show (if check_filters m item (rulesConfig ex inc).excludeRules
                && !check_filters m item (rulesConfig ex inc).includeRules then _
              else _) = _
        rw [show (rulesConfig ex inc).excludeRules = ex from rfl,
            show (rulesConfig ex inc).includeRules = inc from rfl, if_neg hc]
      rw [this]
      rfl
  have hcond : (check_filters m item ex && !check_filters m item inc) = true ↔
      (matchesSpec m item ex ∧ ¬ matchesSpec m item inc) := by
    rw [Bool.and_eq_true, Bool.not_eq_true', check_filters_iff]
    constructor
    · rintro ⟨hx, hi⟩
      refine ⟨hx, fun hinc => ?_⟩
      rw [(check_filters_iff m item inc).mpr hinc] at hi
      exact Bool.noConfusion hi
    · rintro ⟨hx, hi⟩
      refine ⟨hx, ?_⟩
      cases hb : check_filters m item inc
      · rfl
      · exact absurd ((check_filters_iff m item inc).mp hb) hi
  have hiff : (process_feed_items m [item] (rulesConfig ex inc) emptyStats).1 = [item] ↔
      ¬ (matchesSpec m item ex ∧ ¬ matchesSpec m item inc) := by
    rw [hkey]
    by_cases hc : (check_filters m item ex && !check_filters m item inc) = true
    · rw [if_pos hc]
      simp only [hcond.mp hc, not_true_eq_false, iff_false]
      simp
    · rw [if_neg hc]
      have : ¬ (matchesSpec m item ex ∧ ¬ matchesSpec m item inc) := fun h => hc (hcond.mpr h)
      simp [this]
  refine ⟨check_filters_iff m item ex, hiff, ?_, ?_⟩
  · intro hx hi
    exact hiff.mpr (fun h => h.2 hi)
  · intro h
    exact hiff.mpr (fun hcontra => h.1 hcontra.1)

/-- Witness for C2: with literal string equality as the matcher, an entry
matching both an exclude rule and an include rule is yielded. -/
theorem classification_formula_witness :
    let m : String → String → Bool := fun p s => p == s
    let item : FeedItem :=
      { title := "Important Update", guid := "g1", guid_permalink := none, link := "l",
        description := "d", pub_date := "p", categories := [], creator := "spambot" }
    let ex : List FilterConfig := [{ creator := some "spambot" }]
    let inc : List FilterConfig := [{ title := some "Important Update" }]
    (process_feed_items m [item] (rulesConfig ex inc) emptyStats).1 = [item]
    ∧ (process_feed_items m [item] (rulesConfig [] []) emptyStats).1 = [item] := by
  intro m item ex inc
  constructor
  · exact (classification_formula m item ex inc).2.2.1
      ⟨{ creator := some "spambot" }, List.mem_singleton.mpr rfl,
        Or.inr (Or.inr ⟨"spambot", rfl, by decide⟩)⟩
      ⟨{ title := some "Important Update" }, List.mem_singleton.mpr rfl,
        Or.inl ⟨"Important Update", rfl, by decide⟩⟩
  · exact (classification_formula m item [] []).2.2.2
      ⟨by simp [matchesSpec], by simp [matchesSpec]⟩

lemma processLoop_spec (m : String → String → Bool) (cfg : FeedConfig) :
    ∀ (l : List FeedItem) (stats : FilterStatistics),
    processLoop m cfg l stats =
      (l.filter (fun it => passesB m cfg it),
       recordAll stats (l.map (fun it => (it, passesB m cfg it)))) := by
  intro l
  induction l with
  | nil => intro stats; rfl
  | cons item rest ih =>
    intro stats
    have step : processLoop m cfg (item :: rest) stats =
        (if check_filters m item cfg.excludeRules && !check_filters m item cfg.includeRules then
          processLoop m cfg rest (stats.add item false)
        else
          (item :: (processLoop m cfg rest (stats.add item true)).1,
           (processLoop m cfg rest (stats.add item true)).2)) := rfl
    have hmap : (item :: rest).map (fun it => (it, passesB m cfg it)) =
        (item, passesB m cfg item) :: rest.map (fun it => (it, passesB m cfg it)) := rfl
    have hrec : recordAll stats
          ((item, passesB m cfg item) :: rest.map (fun it => (it, passesB m cfg it))) =
        recordAll (stats.add item (passesB m cfg item))
          (rest.map (fun it => (it, passesB m cfg it))) := rfl
    by_cases hc : (check_filters m item cfg.excludeRules
        && !check_filters m item cfg.includeRules) = true
    · have hp : passesB m cfg item = false := by simp [passesB, hc]
      rw [step, if_pos hc, ih (stats.add item false),
        List.filter_cons_of_neg (by simp [hp]), hmap, hrec, hp]
    · have hp : passesB m cfg item = true := by
        simp only [passesB, hc]
        rfl
      rw [step, if_neg hc, ih (stats.add item true),
        List.filter_cons_of_pos (by simp [hp]), hmap, hrec, hp]

/-- C4: the pipeline yields exactly the deduplicated entries classified as
passing, in their post-deduplication relative order, and records into the
ledger exactly one classification per deduplicated entry, in order. -/
theorem pipeline_record_yield (m : String → String → Bool) (items : List FeedItem)
    (cfg : FeedConfig) (stats : FilterStatistics) :
    process_feed_items m items cfg stats =
      ((FeedItem.unicalize items).filter (fun it => passesB m cfg it),
       recordAll stats ((FeedItem.unicalize items).map (fun it => (it, passesB m cfg it))))
    ∧ (process_feed_items m items cfg stats).1.Sublist (FeedItem.unicalize items) := by
  have h := processLoop_spec m cfg (FeedItem.unicalize items) stats
  refine ⟨h, ?_⟩
  have h1 : (process_feed_items m items cfg stats).1 =
      (FeedItem.unicalize items).filter (fun it => passesB m cfg it) := congrArg Prod.fst h
  rw [h1]
  exact List.filter_sublist _

lemma nodup_filter_eq (C : String) :
    ∀ l : List String, l.Nodup → l.filter (fun x => x == C) = if C ∈ l then [C] else [] := by
  intro l
  induction l with
  | nil => intro _; simp
  | cons a rest ih =>
    intro hnd
    obtain ⟨hna, hndr⟩ := List.nodup_cons.mp hnd
    by_cases ha : a = C
    · subst ha
      rw [List.filter_cons_of_pos (by simp)]
      rw [ih hndr, if_neg hna, if_pos (List.mem_cons_self _ _)]
    · rw [List.filter_cons_of_neg (by simpa using ha)]
      rw [ih hndr]
      have : (C ∈ a :: rest) ↔ C ∈ rest := by
        constructor
        · intro h
          rcases List.mem_cons.mp h with h | h
          · exact absurd h.symm ha
          · exact h
        · exact List.mem_cons_of_mem _
      by_cases hm : C ∈ rest
      · rw [if_pos hm, if_pos (this.mpr hm)]
      · rw [if_neg hm, if_neg (fun h => hm (this.mp h))]

lemma counterItems_filter (l : List String) (C : String) :
    (counterItems l).filter (fun p => p.2 == C) =
      if C ∈ l then [(countOcc l C, C)] else [] := by
  unfold counterItems
  rw [List.filter_map]
  have hcomp : ((fun p : Nat × String => p.2 == C) ∘ fun c => (countOcc l c, c)) =
      fun x => x == C := rfl
  rw [hcomp, nodup_filter_eq C l.dedup (List.nodup_dedup l)]
  by_cases hm : C ∈ l
  · rw [if_pos (List.mem_dedup.mpr hm), if_pos hm]
    rfl
  · rw [if_neg (fun h => hm (List.mem_dedup.mp h)), if_neg hm]
    rfl

lemma counterView_filter (l : List String) (C : String) :
    (sortedDesc (counterItems l)).filter (fun p => p.2 == C) =
      if C ∈ l then [(countOcc l C, C)] else [] := by
  have hperm : ((sortedDesc (counterItems l)).filter (fun p => p.2 == C)).Perm
      ((counterItems l).filter (fun p => p.2 == C)) :=
    (List.mergeSort_perm (counterItems l) tupGe).filter _
  rw [counterItems_filter] at hperm
  by_cases hm : C ∈ l
  · rw [if_pos hm] at hperm ⊢
    exact List.perm_singleton.mp hperm
  · rw [if_neg hm] at hperm ⊢
    exact List.perm_nil.mp hperm

lemma tupGe_trans (a b c : Nat × String) :
    tupGe a b = true → tupGe b c = true → tupGe a c = true := by
  simp only [tupGe, decide_eq_true_eq]
  rintro (h1 | ⟨h1, h1s⟩) (h2 | ⟨h2, h2s⟩)
  · exact Or.inl (h2.trans h1)
  · exact Or.inl (lt_of_eq_of_lt h2 h1)
  · exact Or.inl (lt_of_lt_of_eq h2 h1)
  · exact Or.inr ⟨h2.trans h1, le_trans h2s h1s⟩

lemma tupGe_total (a b : Nat × String) : (tupGe a b || tupGe b a) = true := by
  simp only [tupGe, Bool.or_eq_true, decide_eq_true_eq]
  rcases Nat.lt_trichotomy a.1 b.1 with h | h | h
  · exact Or.inr (Or.inl h)
  · rcases le_total a.2 b.2 with hs | hs
    · exact Or.inr (Or.inr ⟨h, hs⟩)
    · exact Or.inl (Or.inr ⟨h.symm, hs⟩)
  · exact Or.inl (Or.inl h)

lemma counterView_sorted (l : List String) :
    List.Pairwise (fun a b : Nat × String => b.1 < a.1 ∨ (a.1 = b.1 ∧ b.2 < a.2))
      (sortedDesc (counterItems l)) := by
  have h1 : List.Pairwise (fun a b => tupGe a b = true) (sortedDesc (counterItems l)) :=
    List.sorted_mergeSort tupGe_trans tupGe_total (counterItems l)
  have hsnd : (counterItems l).map Prod.snd = l.dedup := by
    unfold counterItems
    rw [List.map_map]
    exact List.map_id _
  have hnodup : ((sortedDesc (counterItems l)).map Prod.snd).Nodup := by
    have hperm : ((sortedDesc (counterItems l)).map Prod.snd).Perm
        ((counterItems l).map Prod.snd) :=
      (List.mergeSort_perm (counterItems l) tupGe).map _
    have : ((counterItems l).map Prod.snd).Nodup := by
      rw [hsnd]; exact List.nodup_dedup l
    exact hperm.symm.nodup this
  have h2 : List.Pairwise (fun a b : Nat × String => a.2 ≠ b.2)
      (sortedDesc (counterItems l)) := by
    have := List.pairwise_map.mp hnodup
    exact this
  refine (h1.and h2).imp ?_
  rintro a b ⟨hge, hne⟩
  rw [tupGe, decide_eq_true_eq] at hge
  rcases hge with h | ⟨h, hs⟩
  · exact Or.inl h
  · exact Or.inr ⟨h.symm, lt_of_le_of_ne hs (fun hEq => hne (hEq.symm))⟩

/-- C5: each aggregated view maps every occurring label to its total
occurrence count over the entries currently held in the respective mapping
(categories counted with multiplicity across entry category lists, creators
one per entry) and carries no other labels, and each view is strictly
descending in (count, label): descending count with ties broken by
descending label. -/
theorem stats_views_spec (s : FilterStatistics) (C : String) :
    (s.passed_categories.filter (fun p => p.2 == C) =
      if C ∈ allCategories s.passed then [(countOcc (allCategories s.passed) C, C)] else [])
    ∧ List.Pairwise (fun a b : Nat × String => b.1 < a.1 ∨ (a.1 = b.1 ∧ b.2 < a.2))
        s.passed_categories
    ∧ (s.blocked_categories.filter (fun p => p.2 == C) =
      if C ∈ allCategories s.blocked then [(countOcc (allCategories s.blocked) C, C)] else [])
    ∧ List.Pairwise (fun a b : Nat × String => b.1 < a.1 ∨ (a.1 = b.1 ∧ b.2 < a.2))
        s.blocked_categories
    ∧ (s.passed_creators.filter (fun p => p.2 == C) =
      if C ∈ allCreators s.passed then [(countOcc (allCreators s.passed) C, C)] else [])
    ∧ List.Pairwise (fun a b : Nat × String => b.1 < a.1 ∨ (a.1 = b.1 ∧ b.2 < a.2))
        s.passed_creators
    ∧ (s.blocked_creators.filter (fun p => p.2 == C) =
      if C ∈ allCreators s.blocked then [(countOcc (allCreators s.blocked) C, C)] else [])
    ∧ List.Pairwise (fun a b : Nat × String => b.1 < a.1 ∨ (a.1 = b.1 ∧ b.2 < a.2))
        s.blocked_creators :=
  ⟨counterView_filter _ _, counterView_sorted _,
   counterView_filter _ _, counterView_sorted _,
   counterView_filter _ _, counterView_sorted _,
   counterView_filter _ _, counterView_sorted _⟩

lemma splitPrefixBefore_prefix (pat : List Char) :
    ∀ l : List Char, splitPrefixBefore pat l <+: l := by
  intro l
  induction l with
  | nil => exact List.nil_prefix
  | cons c rest ih =>
    show (if pat.isPrefixOf (c :: rest) then [] else c :: splitPrefixBefore pat rest) <+: c :: rest
    by_cases hp : pat.isPrefixOf (c :: rest) = true
    · rw [if_pos hp]
      exact List.nil_prefix
    · rw [if_neg hp]
      exact List.cons_prefix_cons.mpr ⟨rfl, ih⟩

lemma splitPrefixBefore_idem (pat : List Char) :
    ∀ l : List Char, splitPrefixBefore pat (splitPrefixBefore pat l) = splitPrefixBefore pat l := by
  intro l
  induction l with
  | nil => rfl
  | cons c rest ih =>
    by_cases hp : pat.isPrefixOf (c :: rest) = true
    · have h1 : splitPrefixBefore pat (c :: rest) = [] := by
        show (if pat.isPrefixOf (c :: rest) then [] else c :: splitPrefixBefore pat rest) = []
        rw [if_pos hp]
      rw [h1]
      rfl
    · have h1 : splitPrefixBefore pat (c :: rest) = c :: splitPrefixBefore pat rest := by
        show (if pat.isPrefixOf (c :: rest) then [] else c :: splitPrefixBefore pat rest) = _
        rw [if_neg hp]
      rw [h1]
      have h2 : pat.isPrefixOf (c :: splitPrefixBefore pat rest) = false := by
        rcases Bool.eq_false_or_eq_true (pat.isPrefixOf (c :: splitPrefixBefore pat rest)) with ht | hf
        · exfalso
          apply hp
          rw [List.isPrefixOf_iff_prefix] at ht ⊢
          exact ht.trans (List.cons_prefix_cons.mpr ⟨rfl, splitPrefixBefore_prefix pat rest⟩)
        · exact hf
      have step : splitPrefixBefore pat (c :: splitPrefixBefore pat rest) =
          if pat.isPrefixOf (c :: splitPrefixBefore pat rest) then []
          else c :: splitPrefixBefore pat (splitPrefixBefore pat rest) := rfl
      rw [step, h2]
      simp only [Bool.false_eq_true, if_false]
      rw [ih]

lemma cleanup_link_idem (s : String) :
    cleanup_link (cleanup_link s) = cleanup_link s := by
  obtain ⟨l⟩ := s
  show String.mk (splitPrefixBefore utmMarker (splitPrefixBefore utmMarker l)) =
    String.mk (splitPrefixBefore utmMarker l)
  rw [splitPrefixBefore_idem]

lemma tag_node (t : String) (a : List (String × String)) (x : Option String) (ch : List XElem) :
    (XElem.node t a x ch).tag = t := rfl

lemma filter_cat_aux (cr : String) :
    ∀ cats : List String,
    List.filter (fun c => c.tag == "category") (cats.map catNode ++ [creatorNode cr]) =
      cats.map catNode := by
  intro cats
  induction cats with
  | nil => rfl
  | cons c rest ih =>
    have step : List.filter (fun c => c.tag == "category")
        (catNode c :: (rest.map catNode ++ [creatorNode cr])) =
        catNode c :: List.filter (fun c => c.tag == "category")
          (rest.map catNode ++ [creatorNode cr]) := rfl
    show List.filter (fun c => c.tag == "category")
      (catNode c :: (rest.map catNode ++ [creatorNode cr])) = catNode c :: rest.map catNode
    rw [step, ih]

lemma find?_dc_aux (cr : String) :
    ∀ cats : List String,
    List.find? (fun c => c.tag == dcCreator) (cats.map catNode ++ [creatorNode cr]) =
      some (creatorNode cr) := by
  intro cats
  induction cats with
  | nil => rfl
  | cons c rest ih =>
    have step : List.find? (fun c => c.tag == dcCreator)
        (catNode c :: (rest.map catNode ++ [creatorNode cr])) =
        List.find? (fun c => c.tag == dcCreator)
          (rest.map catNode ++ [creatorNode cr]) := rfl
    show List.find? (fun c => c.tag == dcCreator)
      (catNode c :: (rest.map catNode ++ [creatorNode cr])) = some (creatorNode cr)
    rw [step, ih]

lemma textsOf_map_cat : ∀ cats : List String,
    textsOf (cats.map catNode) = Except.ok cats := by
  intro cats
  induction cats with
  | nil => rfl
  | cons c rest ih =>
    show textsOf (catNode c :: rest.map catNode) = Except.ok (c :: rest)
    have step : textsOf (catNode c :: rest.map catNode) =
        Except.bind (textsOf (rest.map catNode)) (fun r => Except.ok (c :: r)) := rfl
    rw [step, ih]
    rfl

lemma findall_cat_dump (it : FeedItem) :
    (dumpItem it).findall "category" = it.categories.map catNode := by
  have step : List.filter (fun c => c.tag == "category") (dumpItem it).children =
      List.filter (fun c => c.tag == "category")
        (it.categories.map catNode ++ [creatorNode it.creator]) := rfl
  show List.filter (fun c => c.tag == "category") (dumpItem it).children =
    it.categories.map catNode
  rw [step, filter_cat_aux]

lemma getText_dc (it : FeedItem) :
    getText (dumpItem it) dcCreator = Except.ok it.creator := by
  have hfind : (dumpItem it).find? dcCreator = some (creatorNode it.creator) := by
    have step : List.find? (fun c => c.tag == dcCreator) (dumpItem it).children =
        List.find? (fun c => c.tag == dcCreator)
          (it.categories.map catNode ++ [creatorNode it.creator]) := rfl
    show List.find? (fun c => c.tag == dcCreator) (dumpItem it).children =
      some (creatorNode it.creator)
    rw [step, find?_dc_aux]
  unfold getText
  rw [hfind]
  rfl

lemma guid_attribGet (it : FeedItem) :
    (XElem.node "guid" (guidAttrib it) (some it.guid) []).attribGet "isPermaLink" =
      truncPermalink it.guid_permalink := by
  unfold XElem.attribGet XElem.attrib guidAttrib truncPermalink
  cases hp : it.guid_permalink with
  | none => rfl
  | some s =>
    show Option.map (fun p => p.2)
      (List.find? (fun p => p.1 == "isPermaLink")
        (if s = "" then [] else [("isPermaLink", s)])) =
      (if s = "" then none else some s)
    by_cases hs : s = ""
    · rw [if_pos hs, if_pos hs]
      rfl
    · rw [if_neg hs, if_neg hs]
      rfl

lemma truncPermalink_of_ne (o : Option String) (h : o ≠ some "") :
    truncPermalink o = o := by
  cases o with
  | none => rfl
  | some s =>
    show (if s = "" then none else some s) = some s
    rw [if_neg (fun hs => h (by rw [hs]))]

lemma reparsedItem_eq_normLink (it : FeedItem) (h : it.guid_permalink ≠ some "") :
    reparsedItem it = FeedItem.normLink it := by
  unfold reparsedItem FeedItem.normLink
  rw [truncPermalink_of_ne _ h]

lemma parseItem_dumpItem (it : FeedItem) :
    parseItem (dumpItem it) = Except.ok (reparsedItem it) := by
  have h1 : getText (dumpItem it) "title" = Except.ok it.title := rfl
  have hfg : (dumpItem it).find? "guid" =
      some (XElem.node "guid" (guidAttrib it) (some it.guid) []) := rfl
  have h3 : getText (dumpItem it) "link" = Except.ok it.link := rfl
  have h4 : getText (dumpItem it) "description" = Except.ok it.description := rfl
  have h5 : getText (dumpItem it) "pubDate" = Except.ok it.pub_date := rfl
  have hcats := findall_cat_dump it
  have htx := textsOf_map_cat it.categories
  have hcr := getText_dc it
  have hattr := guid_attribGet it
  simp only [parseItem, h1, hfg, h3, h4, h5, hcats, htx, hcr, Bind.bind, Except.bind,
    XElem.text, hattr]
  simp [reparsedItem]

lemma parseItems_map_dump : ∀ items : List FeedItem,
    parseItems (items.map dumpItem) = Except.ok (items.map reparsedItem) := by
  intro items
  induction items with
  | nil => rfl
  | cons it rest ih =>
    have step : parseItems (dumpItem it :: rest.map dumpItem) =
        Except.bind (parseItem (dumpItem it)) (fun x =>
          Except.bind (parseItems (rest.map dumpItem)) (fun xs =>
            Except.ok (x :: xs))) := rfl
    show parseItems (dumpItem it :: rest.map dumpItem) =
      Except.ok (reparsedItem it :: rest.map reparsedItem)
    rw [step, parseItem_dumpItem, ih]
    rfl

lemma filter_item_map : ∀ items : List FeedItem,
    List.filter (fun c => c.tag == "item") (items.map dumpItem) = items.map dumpItem := by
  intro items
  induction items with
  | nil => rfl
  | cons it rest ih =>
    have step : List.filter (fun c => c.tag == "item") (dumpItem it :: rest.map dumpItem) =
        dumpItem it :: List.filter (fun c => c.tag == "item") (rest.map dumpItem) := rfl
    rw [List.map_cons, step, ih]

lemma channelItems_dump (items : List FeedItem) :
    channelItems (dump_feed items) = items.map dumpItem := by
  have step : channelItems (dump_feed items) =
      List.filter (fun c => c.tag == "item") (items.map dumpItem) ++ [] := rfl
  rw [step, List.append_nil, filter_item_map]

lemma parse_feed_dump (items : List FeedItem) :
    parse_feed (dump_feed items) = Except.ok (items.map reparsedItem) := by
  show parseItems (channelItems (dump_feed items)) = _
  rw [channelItems_dump, parseItems_map_dump]

/-- C6: parsing the serialization of a list of entries yields the same list
field for field, modulo link normalization (which is an idempotent prefix
cut at the first `?utm` marker); entries whose links are already normalized
come back unchanged.  The hypotheses require the entries to be well formed
in the sense that the permalink flag is not the degenerate empty string
(see the companion claim on that edge case). -/
theorem round_trip (items : List FeedItem) :
    ((∀ it ∈ items, it.guid_permalink ≠ some "") →
      parse_feed (dump_feed items) = Except.ok (items.map FeedItem.normLink))
    ∧ (∀ s, cleanup_link (cleanup_link s) = cleanup_link s)
    ∧ ((∀ it ∈ items, it.guid_permalink ≠ some "" ∧ cleanup_link it.link = it.link) →
      parse_feed (dump_feed items) = Except.ok items) := by
  refine ⟨?_, cleanup_link_idem, ?_⟩
  · intro h
    rw [parse_feed_dump]
    congr 1
    apply List.map_congr_left
    intro it hmem
    exact reparsedItem_eq_normLink it (h it hmem)
  · intro h
    rw [parse_feed_dump]
    have : items.map reparsedItem = items.map id := by
      apply List.map_congr_left
      intro it hmem
      obtain ⟨h1, h2⟩ := h it hmem
      unfold reparsedItem
      rw [truncPermalink_of_ne _ h1, h2]
      rfl
    rw [this, List.map_id]

/-- Witness for C6: a concrete two-entry list with a normalized link and a
link carrying a `?utm` marker round-trips to its normalized form. -/
theorem round_trip_witness :
    let i1 : FeedItem :=
      { title := "t1", guid := "g1", guid_permalink := some "true",
        link := "https://a/x", description := "d1", pub_date := "p1",
        categories := ["c1", "c2"], creator := "a1" }
    let i2 : FeedItem :=
      { title := "t2", guid := "g2", guid_permalink := none,
        link := "https://a/y?utm_source=z", description := "d2", pub_date := "p2",
        categories := [], creator := "a2" }
    parse_feed (dump_feed [i1, i2]) =
      Except.ok [i1, { i2 with link := "https://a/y" }]
    ∧ parse_feed (dump_feed [i1]) = Except.ok [i1] := by
  intro i1 i2
  constructor
  · have h := (round_trip [i1, i2]).1 (by decide)
    rw [h]
    congr 1
  · exact (round_trip [i1]).2.2 (by decide)

/-- C10: the serializer emits the isPermaLink attribute iff the permalink
flag is truthy (neither none nor the empty string), the parser reads the
flag back from that attribute (absent attribute gives none), and hence an
entry whose flag is the empty string comes back from a serialize-parse
round trip with flag none, not the empty string. -/
theorem guid_permalink_edge (it : FeedItem) :
    (∀ g, (dumpItem it).find? "guid" = some g →
      g.attribGet "isPermaLink" = truncPermalink it.guid_permalink)
    ∧ (it.guid_permalink = some "" →
      parse_feed (dump_feed [it]) =
        Except.ok [{ it with
          link := cleanup_link it.link
          guid_permalink := none }]) := by
  constructor
  · intro g hg
    have hfg : (dumpItem it).find? "guid" =
        some (XElem.node "guid" (guidAttrib it) (some it.guid) []) := rfl
    rw [hfg] at hg
    injection hg with hg
    rw [← hg]
    exact guid_attribGet it
  · intro hp
    rw [parse_feed_dump]
    have : reparsedItem it = { it with
        link := cleanup_link it.link
        guid_permalink := none } := by
      unfold reparsedItem truncPermalink
      rw [hp]
      rfl
    rw [List.map_cons]
    show Except.ok [reparsedItem it] = _
    rw [this]

/-- Witness for C10 at a concrete entry with empty-string permalink flag:
the serialized guid element carries no isPermaLink attribute and the round
trip yields none for the flag. -/
theorem guid_permalink_edge_witness :
    parse_feed (dump_feed
      [{ title := "t", guid := "g", guid_permalink := some "", link := "l",
         description := "d", pub_date := "p", categories := [], creator := "c" }]) =
      Except.ok
        [{ title := "t", guid := "g", guid_permalink := none, link := cleanup_link "l",
           description := "d", pub_date := "p", categories := [], creator := "c" }]
    ∧ (XElem.node "guid" [] (some "g") []).attribGet "isPermaLink" =
        truncPermalink (some "") :=
  ⟨(guid_permalink_edge
      { title := "t", guid := "g", guid_permalink := some "", link := "l",
        description := "d", pub_date := "p", categories := [], creator := "c" }).2 rfl,
   (guid_permalink_edge
      { title := "t", guid := "g", guid_permalink := some "", link := "l",
        description := "d", pub_date := "p", categories := [], creator := "c" }).1
      (XElem.node "guid" [] (some "g") []) rfl⟩

lemma parseItem_eq (item : XElem) : parseItem item =
    Except.bind (getText item "title") (fun title =>
    Except.bind (match item.find? "guid" with
      | none => Except.error "missing element guid"
      | some g => Except.ok g) (fun guidElem =>
    Except.bind (match guidElem.text with
      | none => Except.error "missing text of guid"
      | some s => Except.ok s) (fun guid =>
    Except.bind (getText item "link") (fun link =>
    Except.bind (getText item "description") (fun description =>
    Except.bind (getText item "pubDate") (fun pubDate =>
    Except.bind (textsOf (item.findall "category")) (fun categories =>
    Except.bind (getText item dcCreator) (fun creator =>
    Except.ok
      { title := title
        guid := guid
        guid_permalink := guidElem.attribGet "isPermaLink"
        link := cleanup_link link
        description := description
        pub_date := pubDate
        categories := categories
        creator := creator })))))))) := rfl

lemma getText_ok_find (item : XElem) (t s : String)
    (h : getText item t = Except.ok s) : ∃ c, item.find? t = some c := by
  unfold getText at h
  cases hf : item.find? t with
  | none =>
    rw [hf] at h
    simp at h
  | some c => exact ⟨c, rfl⟩

lemma hasTextChild_getText (item : XElem) (t : String) (h : hasTextChild item t = true) :
    ∃ c s, item.find? t = some c ∧ c.text = some s ∧ getText item t = Except.ok s := by
  unfold hasTextChild at h
  cases hf : item.find? t with
  | none =>
    rw [hf] at h
    simp at h
  | some c =>
    rw [hf] at h
    obtain ⟨s, hs⟩ := Option.isSome_iff_exists.mp h
    exact ⟨c, s, rfl, hs, by simp [getText, hf, hs]⟩

lemma textsOf_ok_of_all : ∀ l : List XElem,
    (l.all fun c => c.text.isSome) = true → ∃ cs, textsOf l = Except.ok cs := by
  intro l
  induction l with
  | nil => intro _; exact ⟨[], rfl⟩
  | cons e rest ih =>
    intro h
    rw [List.all_cons, Bool.and_eq_true] at h
    obtain ⟨he, hrest⟩ := h
    obtain ⟨s, hs⟩ := Option.isSome_iff_exists.mp he
    obtain ⟨cs, hcs⟩ := ih hrest
    refine ⟨s :: cs, ?_⟩
    have step : textsOf (e :: rest) =
        (match e.text with
         | none => Except.error "missing text of category"
         | some s => Except.bind (textsOf rest) (fun r => Except.ok (s :: r))) := rfl
    rw [step, hs, hcs]
    rfl

lemma parseItem_ok_of_complete (item : XElem) (h : itemComplete item = true) :
    ∃ fi, parseItem item = Except.ok fi := by
  unfold itemComplete at h
  simp only [Bool.and_eq_true] at h
  obtain ⟨⟨⟨⟨⟨⟨h1, h2⟩, h3⟩, h4⟩, h5⟩, h6⟩, h7⟩ := h
  obtain ⟨c1, s1, hf1, hx1, hg1⟩ := hasTextChild_getText item "title" h1
  obtain ⟨c2, s2, hf2, hx2, hg2⟩ := hasTextChild_getText item "guid" h2
  obtain ⟨c3, s3, hf3, hx3, hg3⟩ := hasTextChild_getText item "link" h3
  obtain ⟨c4, s4, hf4, hx4, hg4⟩ := hasTextChild_getText item "description" h4
  obtain ⟨c5, s5, hf5, hx5, hg5⟩ := hasTextChild_getText item "pubDate" h5
  obtain ⟨c6, s6, hf6, hx6, hg6⟩ := hasTextChild_getText item dcCreator h6
  obtain ⟨cs, hcs⟩ := textsOf_ok_of_all _ h7
  refine ⟨{ title := s1, guid := s2, guid_permalink := c2.attribGet "isPermaLink",
            link := cleanup_link s3, description := s4, pub_date := s5,
            categories := cs, creator := s6 }, ?_⟩
  rw [parseItem_eq]
  simp only [hg1, hf2, hx2, hg3, hg4, hg5, hcs, hg6, Except.bind]

lemma parseItem_ok_not_missing (item : XElem) (fi : FeedItem)
    (h : parseItem item = Except.ok fi) : missingMandatory item = false := by
  rw [parseItem_eq] at h
  have e1 : ∃ s, getText item "title" = Except.ok s := by
    cases h1 : getText item "title" with
    | error e =>
      rw [h1] at h
      simp [Except.bind] at h
    | ok s => exact ⟨s, rfl⟩
  obtain ⟨s1, h1⟩ := e1
  rw [h1] at h
  simp only [Except.bind] at h
  have e2 : ∃ c, item.find? "guid" = some c := by
    cases h2 : item.find? "guid" with
    | none =>
      rw [h2] at h
      simp [Except.bind] at h
    | some c => exact ⟨c, rfl⟩
  obtain ⟨c2, h2⟩ := e2
  rw [h2] at h
  simp only [Except.bind] at h
  have e3 : ∃ s, c2.text = some s := by
    cases h3 : c2.text with
    | none =>
      rw [h3] at h
      simp [Except.bind] at h
    | some s => exact ⟨s, rfl⟩
  obtain ⟨s3, h3⟩ := e3
  rw [h3] at h
  simp only [Except.bind] at h
  have e4 : ∃ s, getText item "link" = Except.ok s := by
    cases h4 : getText item "link" with
    | error e =>
      rw [h4] at h
      simp [Except.bind] at h
    | ok s => exact ⟨s, rfl⟩
  obtain ⟨s4, h4⟩ := e4
  rw [h4] at h
  simp only [Except.bind] at h
  have e5 : ∃ s, getText item "description" = Except.ok s := by
    cases h5 : getText item "description" with
    | error e =>
      rw [h5] at h
      simp [Except.bind] at h
    | ok s => exact ⟨s, rfl⟩
  obtain ⟨s5, h5⟩ := e5
  rw [h5] at h
  simp only [Except.bind] at h
  have e6 : ∃ s, getText item "pubDate" = Except.ok s := by
    cases h6 : getText item "pubDate" with
    | error e =>
      rw [h6] at h
      simp [Except.bind] at h
    | ok s => exact ⟨s, rfl⟩
  obtain ⟨s6, h6⟩ := e6
  rw [h6] at h
  simp only [Except.bind] at h
  have e7 : ∃ cs, textsOf (item.findall "category") = Except.ok cs := by
    cases h7 : textsOf (item.findall "category") with
    | error e =>
      rw [h7] at h
      simp [Except.bind] at h
    | ok cs => exact ⟨cs, rfl⟩
  obtain ⟨cs7, h7⟩ := e7
  rw [h7] at h
  simp only [Except.bind] at h
  have e8 : ∃ s, getText item dcCreator = Except.ok s := by
    cases h8 : getText item dcCreator with
    | error e =>
      rw [h8] at h
      simp [Except.bind] at h
    | ok s => exact ⟨s, rfl⟩
  obtain ⟨s8, h8⟩ := e8
  obtain ⟨ct, hft⟩ := getText_ok_find item "title" s1 h1
  obtain ⟨cl, hfl⟩ := getText_ok_find item "link" s4 h4
  obtain ⟨cd, hfd⟩ := getText_ok_find item "description" s5 h5
  obtain ⟨cp, hfp⟩ := getText_ok_find item "pubDate" s6 h6
  obtain ⟨cc, hfc⟩ := getText_ok_find item dcCreator s8 h8
  simp [missingMandatory, hft, h2, hfl, hfd, hfp, hfc]

lemma parseItems_ok_all : ∀ (l : List XElem) (xs : List FeedItem),
    parseItems l = Except.ok xs → ∀ it ∈ l, ∃ fi, parseItem it = Except.ok fi := by
  intro l
  induction l with
  | nil =>
    intro xs _ it hmem
    exact absurd hmem (List.not_mem_nil it)
  | cons e rest ih =>
    intro xs h it hmem
    have step : parseItems (e :: rest) =
        Except.bind (parseItem e) (fun x =>
          Except.bind (parseItems rest) (fun ys => Except.ok (x :: ys))) := rfl
    rw [step] at h
    cases he : parseItem e with
    | error err =>
      rw [he] at h
      simp [Except.bind] at h
    | ok fe =>
      rw [he] at h
      simp only [Except.bind] at h
      cases hr : parseItems rest with
      | error err =>
        rw [hr] at h
        simp [Except.bind] at h
      | ok ys =>
        rcases List.mem_cons.mp hmem with rfl | hmem2
        · exact ⟨fe, he⟩
        · exact ih ys hr it hmem2

lemma parseItems_ok_of_all : ∀ l : List XElem,
    (∀ it ∈ l, ∃ fi, parseItem it = Except.ok fi) →
    ∃ xs, parseItems l = Except.ok xs ∧ xs.length = l.length := by
  intro l
  induction l with
  | nil => intro _; exact ⟨[], rfl, rfl⟩
  | cons e rest ih =>
    intro h
    obtain ⟨fe, he⟩ := h e (List.mem_cons_self _ _)
    obtain ⟨ys, hys, hlen⟩ := ih (fun it hm => h it (List.mem_cons_of_mem _ hm))
    refine ⟨fe :: ys, ?_, by simp [hlen]⟩
    have step : parseItems (e :: rest) =
        Except.bind (parseItem e) (fun x =>
          Except.bind (parseItems rest) (fun ys => Except.ok (x :: ys))) := rfl
    rw [step, he, hys]
    rfl

/-- C9: a well-formed document in which some item node lacks one of the six
mandatory sub-fields fails to parse with an error instead of producing
entries, while a document whose item nodes all carry the mandatory
sub-fields (with any number of category sub-elements, zero included)
parses to one entry per item node. -/
theorem parse_mandatory_fields (root : XElem) :
    ((∃ item ∈ channelItems root, missingMandatory item = true) →
      ∃ e, parse_feed root = Except.error e)
    ∧ ((∀ item ∈ channelItems root, itemComplete item = true) →
      ∃ l, parse_feed root = Except.ok l ∧ l.length = (channelItems root).length) := by
  constructor
  · rintro ⟨item, hmem, hmiss⟩
    cases hres : parse_feed root with
    | error e => exact ⟨e, rfl⟩
    | ok xs =>
      obtain ⟨fi, hfi⟩ := parseItems_ok_all (channelItems root) xs hres item hmem
      rw [parseItem_ok_not_missing item fi hfi] at hmiss
      exact Bool.noConfusion hmiss
  · intro h
    exact parseItems_ok_of_all (channelItems root)
      (fun it hm => parseItem_ok_of_complete it (h it hm))

/-- Witness for C9: a document whose single item node has no children at
all fails to parse, while one whose single item node carries the six
mandatory text fields and no category parses to one entry. -/
theorem parse_mandatory_fields_witness :
    (∃ e, parse_feed (XElem.node "rss" [] none
      [XElem.node "channel" [] none [XElem.node "item" [] none []]]) =
      Except.error e)
    ∧ (∃ l, parse_feed (XElem.node "rss" [] none
        [XElem.node "channel" [] none [XElem.node "item" [] none
          [XElem.node "title" [] (some "t") [],
           XElem.node "guid" [] (some "g") [],
           XElem.node "link" [] (some "l") [],
           XElem.node "description" [] (some "d") [],
           XElem.node "pubDate" [] (some "p") [],
           XElem.node dcCreator [] (some "c") []]]]) = Except.ok l
        ∧ l.length = (channelItems (XElem.node "rss" [] none
            [XElem.node "channel" [] none [XElem.node "item" [] none
              [XElem.node "title" [] (some "t") [],
               XElem.node "guid" [] (some "g") [],
               XElem.node "link" [] (some "l") [],
               XElem.node "description" [] (some "d") [],
               XElem.node "pubDate" [] (some "p") [],
               XElem.node dcCreator [] (some "c") []]]])).length) := by
  constructor
  · apply (parse_mandatory_fields _).1
    refine ⟨XElem.node "item" [] none [], ?_, rfl⟩
    have h : channelItems (XElem.node "rss" [] none
        [XElem.node "channel" [] none [XElem.node "item" [] none []]]) =
        [XElem.node "item" [] none []] := rfl
    rw [h]
    exact List.mem_singleton.mpr rfl
  · apply (parse_mandatory_fields _).2
    intro item hmem
    have h : channelItems (XElem.node "rss" [] none
        [XElem.node "channel" [] none [XElem.node "item" [] none
          [XElem.node "title" [] (some "t") [],
           XElem.node "guid" [] (some "g") [],
           XElem.node "link" [] (some "l") [],
           XElem.node "description" [] (some "d") [],
           XElem.node "pubDate" [] (some "p") [],
           XElem.node dcCreator [] (some "c") []]]]) =
        [XElem.node "item" [] none
          [XElem.node "title" [] (some "t") [],
           XElem.node "guid" [] (some "g") [],
           XElem.node "link" [] (some "l") [],
           XElem.node "description" [] (some "d") [],
           XElem.node "pubDate" [] (some "p") [],
           XElem.node dcCreator [] (some "c") []]] := rfl
    rw [h] at hmem
    rw [List.mem_singleton.mp hmem]
    rfl

/-- Counterexample to C8: under a re model in which the pattern `(` does
not compile, a configuration carrying that pattern in an exclude rule is
accepted unchanged by load_config (no rejection at load time), and
evaluating that rule against an entry raises the regex-compilation error. -/
theorem regex_load_time_counterexample :
    load_config badPatternConfig = Except.ok badPatternConfig
    ∧ badPatternConfig.feeds.map (fun f => f.excludeRules) =
        [[{ title := some "(", category := none, creator := none }]]
    ∧ check_filtersE parenInvalidModel sampleItem
        [{ title := some "(", category := none, creator := none }] =
        Except.error "re.error" :=
  ⟨rfl, rfl, rfl⟩

/-- C8 (amended): load_config performs no validation of regex patterns and
accepts any configuration; a pattern that does not compile instead raises
the regex-compilation error inside check_filters when the rule carrying it
is first evaluated against an entry. -/
theorem regex_error_at_evaluation (R : RegexModel) (raw : FeedsConfig) (item : FeedItem)
    (p : String) (filt : FilterConfig) (rest : List FilterConfig) :
    load_config raw = Except.ok raw
    ∧ (R.valid p = false → filt.title = some p →
        check_filtersE R item (filt :: rest) = Except.error "re.error") := by
  refine ⟨rfl, ?_⟩
  intro hv ht
  simp [check_filtersE, ht, reFullmatch, hv, Bind.bind, Except.bind]

/-- Witness for C8's amended claim at the concrete invalid pattern `(`. -/
theorem regex_error_at_evaluation_witness :
    check_filtersE parenInvalidModel sampleItem
      [{ title := some "(", category := none, creator := none }] =
      Except.error "re.error" :=
  (regex_error_at_evaluation parenInvalidModel badPatternConfig sampleItem "("
    { title := some "(", category := none, creator := none } []).2 rfl rfl
